import Mathlib

/-
Verification of the cluster-side RPC connection manager
(`src/provisioningserver/rpc/clusterservice.py`).

The embedding models the mutable world of `ClusterClientService` and its
`ClusterClient` protocol instances:

* `ClusterState.connections` is the service's `connections` dict, an
  association list from event-loop name to the `ClusterClient` registered
  under that name.
* `ClusterState.pendingClose` records connections on which
  `transport.loseConnection()` has been called but whose `connectionLost`
  notification has not yet been delivered by the reactor (teardown in
  Twisted is asynchronous: `loseConnection` never mutates the registry
  itself; only `connectionLost` does, later).
* `ClusterState.secured` records (by `connId`, which models Python object
  identity) the connections whose `secureConnection` identity exchange
  completed without closing the transport; these are the spec-level
  `Open` connections.

Each Python method becomes a pure state transformer; the reconciliation
pass `_update_connections` also produces a trace of the connect/drop
actions it performed, in program order.
-/

namespace ClusterService

/-- An `(host, port)` endpoint address, as in the Python `(host, port)`
tuples used for dictionary keys and `TCP4ClientEndpoint` arguments. -/
abbrev Addr := String × Nat

/-- A `ClusterClient` protocol instance: the event-loop it was created
for, the address it dialed, and `connId` modelling Python object
identity (the `is` comparison in `connectionLost`). -/
structure Conn where
  eventloop : String
  address : Addr
  connId : Nat
deriving DecidableEq

/-- The mutable world of one `ClusterClientService`: its `running` flag,
its `connections` dict, the transports asked to close whose
`connectionLost` has not fired yet, and the connections whose identity
exchange succeeded (spec-level `Open`). -/
structure ClusterState where
  running : Bool
  connections : List (String × Conn)
  pendingClose : List Conn
  secured : List Nat
deriving DecidableEq

/-- Dictionary access `d[k]` / `d.get(k)`: first binding of a key in an
association list. -/
def lookupKey {β : Type} : List (String × β) → String → Option β
  | [], _ => none
  | (m, b) :: rest, n => if m = n then some b else lookupKey rest n

/-- Dictionary deletion `del d[k]`: remove the bindings of a key. -/
def eraseKey {β : Type} : List (String × β) → String → List (String × β)
  | [], _ => []
  | (m, b) :: rest, n => if m = n then eraseKey rest n else (m, b) :: eraseKey rest n

/-- A Python dict never holds two bindings for one key. -/
def nodupKeys {β : Type} (l : List (String × β)) : Prop :=
  (l.map Prod.fst).Nodup

instance {β : Type} [DecidableEq β] (l : List (String × β)) :
    Decidable (nodupKeys l) := by
  unfold nodupKeys
  infer_instance

/-- Registry well-formedness: `connectionMade` only ever stores a client
under its own `eventloop` name. -/
def wfKeys (l : List (String × Conn)) : Prop :=
  ∀ n c, (n, c) ∈ l → c.eventloop = n

/-- `transport.loseConnection()`: ask the transport to close.  The
registry is untouched; the reactor will deliver `connectionLost` later. -/
def loseConnection (c : Conn) (s : ClusterState) : ClusterState :=
  { s with pendingClose := c :: s.pendingClose }

/-- `ClusterClient.connectionMade` (lines 244-251): if the service is not
running, or the registry already has an entry for this event-loop, the
new connection closes its own transport; otherwise it registers itself. -/
def connectionMade (c : Conn) (s : ClusterState) : ClusterState :=
  if s.running = false then loseConnection c s
  else if (lookupKey s.connections c.eventloop).isSome then loseConnection c s
  else { s with connections := s.connections ++ [(c.eventloop, c)] }

/-- `ClusterClient.connectionLost` (lines 253-257): delete the registry
entry for this client's event-loop only when the registry currently maps
that name to this exact instance (`is self`, modelled by `connId`).  The
transport is now really gone, so the connection leaves `pendingClose`. -/
def connectionLost (c : Conn) (s : ClusterState) : ClusterState :=
  { s with
    connections :=
      match lookupKey s.connections c.eventloop with
      | some c2 =>
        if c2.connId = c.connId then eraseKey s.connections c.eventloop
        else s.connections
      | none => s.connections,
    pendingClose := s.pendingClose.filter (fun d => d ≠ c) }

/-- Modelled from the spec: the result of the region `Identify` command,
whose schema (`provisioningserver.rpc.region.Identify`) is not part of
the sources under verification.  Per the spec's external-interface
section the result is `{"ident": <endpoint-name>}`; the sibling
responder `Cluster.identify` in the source (line 88) uses the same
`"ident"` key. -/
def identifyResult (ident : String) : List (String × String) :=
  [("ident", ident)]

/-- `ClusterClient.secureConnection` (lines 259-278) after the StartTLS
exchange: read `response.get("name")` from the identity result and close
the transport unless it equals the event-loop this client was dialing;
otherwise the connection is trusted (spec-level `Open`, recorded in
`secured`). -/
def secureConnection (c : Conn) (response : List (String × String)) (s : ClusterState) :
    ClusterState :=
  let remote_name := lookupKey response "name"
  if remote_name = some c.eventloop then { s with secured := c.connId :: s.secured }
  else loseConnection c s

/-- The wrapper returned by `getClient` (`common.Client(conn)`). -/
structure Client where
  conn : Conn
deriving DecidableEq

/-- Outcome of `ClusterClientService.getClient`: either the
`NoConnectionsAvailable` exception or a `common.Client`. -/
inductive GetClientResult where
  | NoConnectionsAvailable
  | ok (cl : Client)
deriving DecidableEq

/-- `ClusterClientService.getClient` (lines 303-315): snapshot all
registry values (`list(self.connections.viewvalues())`), raise
`NoConnectionsAvailable` when empty, otherwise `random.choice`; the
random draw is modelled by an index `k`, reduced modulo the snapshot
length. -/
def getClient (s : ClusterState) (k : Nat) : GetClientResult :=
  let conns := s.connections.map Prod.snd
  if conns.isEmpty then GetClientResult.NoConnectionsAvailable
  else
    match conns.get? (k % conns.length) with
    | some c => GetClientResult.ok ⟨c⟩
    | none => GetClientResult.NoConnectionsAvailable

/-- Spec-level `Open` state of a connection: its identity exchange has
succeeded and its transport has not been asked to close. -/
def IsOpen (s : ClusterState) (c : Conn) : Prop :=
  c.connId ∈ s.secured ∧ c ∉ s.pendingClose

instance (s : ClusterState) (c : Conn) : Decidable (IsOpen s c) := by
  unfold IsOpen; infer_instance

/-- The registry's `Open` connections (a derived view; the source keeps
no explicit state field). -/
def openConns (s : ClusterState) : List Conn :=
  (s.connections.map Prod.snd).filter (fun c => decide (IsOpen s c))

def INTERVAL_LOW : Nat := 2
def INTERVAL_MID : Nat := 10
def INTERVAL_HIGH : Nat := 30

/-- `ClusterClientService._calculate_interval` (lines 350-377). -/
def calculate_interval (num_eventloops : Option Nat) (num_connections : Nat) : Nat :=
  match num_eventloops with
  | none => INTERVAL_LOW
  | some k =>
    if k = 0 then INTERVAL_LOW
    else if num_connections = 0 then INTERVAL_LOW
    else if num_connections < k then INTERVAL_MID
    else INTERVAL_HIGH

/-- One observable action of a reconciliation pass, in program order:
a `loseConnection` issued by the first loop (address no longer
advertised), one connect attempt of the middle loop (with its outcome),
or a `loseConnection` issued by the last loop (event-loop no longer
advertised). -/
inductive RAction where
  | dropStale (c : Conn)
  | connectAttempt (name : String) (a : Addr) (ok : Bool)
  | dropGone (c : Conn)
deriving DecidableEq

/-- First loop of `_update_connections` (lines 411-415), one step: if
this advertised event-loop has a registered connection whose address is
not among the advertised addresses, drop it. -/
def dropStaleStep (p : ClusterState × List RAction) (e : String × List Addr) :
    ClusterState × List RAction :=
  match lookupKey p.1.connections e.1 with
  | some c =>
    if c.address ∈ e.2 then p
    else (loseConnection c p.1, p.2 ++ [RAction.dropStale c])
  | none => p

/-- First loop of `_update_connections`: drop connections whose address
is no longer advertised for their event-loop. -/
def dropStalePhase (evl : List (String × List Addr)) (s : ClusterState) :
    ClusterState × List RAction :=
  evl.foldl dropStaleStep (s, [])

/-- Inner loop of the connect phase (lines 421-431): try each advertised
address in turn; a failed dial (`ConnectError`) advances to the next
address, a successful dial runs `connectionMade` on a fresh protocol
instance and breaks. -/
def tryAddresses (ok : String → Addr → Bool) (name : String) :
    List Addr → ClusterState × Nat × List RAction → ClusterState × Nat × List RAction
  | [], p => p
  | a :: rest, (s, nid, tr) =>
    if ok name a then
      (connectionMade ⟨name, a, nid⟩ s, nid + 1, tr ++ [RAction.connectAttempt name a true])
    else
      tryAddresses ok name rest (s, nid + 1, tr ++ [RAction.connectAttempt name a false])

/-- Second loop of `_update_connections` (lines 419-431), one step:
attempt connections only for event-loops with no current registry
entry. -/
def connectStep (ok : String → Addr → Bool) (p : ClusterState × Nat × List RAction)
    (e : String × List Addr) : ClusterState × Nat × List RAction :=
  if (lookupKey p.1.connections e.1).isSome then p
  else tryAddresses ok e.1 e.2 p

/-- Second loop of `_update_connections`: connect to advertised
event-loops that have no registry entry. -/
def connectPhase (ok : String → Addr → Bool) (evl : List (String × List Addr))
    (s : ClusterState) (nid : Nat) : ClusterState × Nat × List RAction :=
  evl.foldl (connectStep ok) (s, nid, [])

/-- Third loop of `_update_connections` (lines 437-440), one step: drop
the connection of an event-loop that is no longer advertised. -/
def dropGoneStep (names : List String) (p : ClusterState × List RAction)
    (e : String × Conn) : ClusterState × List RAction :=
  if e.1 ∈ names then p
  else (loseConnection e.2 p.1, p.2 ++ [RAction.dropGone e.2])

/-- Third loop of `_update_connections`: drop connections to event-loops
absent from the advertised set.  The loop iterates over the registry as
it stands after the connect phase; `loseConnection` leaves the registry
itself untouched. -/
def dropGonePhase (evl : List (String × List Addr)) (s : ClusterState) :
    ClusterState × List RAction :=
  s.connections.foldl (dropGoneStep (evl.map Prod.fst)) (s, [])

/-- Result of one reconciliation pass: final state, next fresh object
id, and the trace of actions in program order. -/
structure PassResult where
  state : ClusterState
  nextId : Nat
  trace : List RAction
deriving DecidableEq

/-- `ClusterClientService._update_connections` (lines 384-440): the three
loops in source order.  `ok` is the oracle telling which dials succeed,
`nid` supplies fresh object identities for new `ClusterClient`s. -/
def update_connections (ok : String → Addr → Bool) (evl : List (String × List Addr))
    (s : ClusterState) (nid : Nat) : PassResult :=
  let p1 := dropStalePhase evl s
  let p2 := connectPhase ok evl p1.1 nid
  let p3 := dropGonePhase evl p2.1
  ⟨p3.1, p2.2.1, p1.2 ++ p2.2.2 ++ p3.2⟩

/-- Deliver the queued `connectionLost` notifications for a list of
closed transports, in order. -/
def deliverAll (l : List Conn) (s : ClusterState) : ClusterState :=
  l.foldl (fun s2 c => connectionLost c s2) s

/-- Let every teardown initiated so far complete: the reactor delivers
`connectionLost` for every transport in `pendingClose`. -/
def quiesce (s : ClusterState) : ClusterState :=
  deliverAll s.pendingClose s

/-- Result of one `ClusterClientService.update` call: the state after the
call and the two arguments passed to `_update_interval`. -/
structure UpdateResult where
  state : ClusterState
  nextId : Nat
  numEventloopsArg : Option Nat
  numConnectionsArg : Nat
deriving DecidableEq

/-- `ClusterClientService.update` (lines 317-336).  `info = some evl`
models a fetch whose body's `"eventloops"` key is present with value
`evl`; `info = none` models a failed fetch or a body from which
`info["eventloops"]` raises (`KeyError` lands in the bare `except:`):
on that path `_update_connections` is never called and
`_update_interval(None, len(self.connections))` runs; otherwise the pass
runs and `_update_interval(len(eventloops), len(self.connections))` sees
the registry as the pass left it. -/
def update (ok : String → Addr → Bool) (info : Option (List (String × List Addr)))
    (s : ClusterState) (nid : Nat) : UpdateResult :=
  match info with
  | none => ⟨s, nid, none, s.connections.length⟩
  | some evl =>
    let r := update_connections ok evl s nid
    ⟨r.state, r.nextId, some evl.length, r.state.connections.length⟩

def c10conn : Conn := ⟨"r1", ("host1", 5250), 3⟩

def c10state : ClusterState := ⟨true, [], [], []⟩

def c8conn : Conn := ⟨"r1", ("host1", 5250), 7⟩

def c8state : ClusterState := ⟨true, [("r1", c8conn)], [], []⟩

def c5conn : Conn := ⟨"region1", ("10.0.0.1", 5250), 0⟩

def c5state : ClusterState := ⟨true, [("region1", c5conn)], [], []⟩

def c6conn : Conn := ⟨"r1", ("host1", 5250), 0⟩

/-- A state whose single registry entry is still authenticating (its
identity exchange has not succeeded), so the `Open` set is empty. -/
def c6state : ClusterState := ⟨true, [("r1", c6conn)], [], []⟩

def c7conn : Conn := ⟨"r1", ("10.0.0.1", 5250), 0⟩

def c7state : ClusterState := ⟨true, [("r1", c7conn)], [], [0]⟩

def c7ok : String → Addr → Bool := fun _ _ => false

def c3connA : Conn := ⟨"region1", ("10.0.0.1", 5250), 0⟩

def c3addrB : Addr := ("10.0.0.2", 5250)

def c3state : ClusterState := ⟨true, [("region1", c3connA)], [], [0]⟩

def c3ok : String → Addr → Bool := fun _ _ => true

def c1conn : Conn := ⟨"r1", ("10.0.0.1", 5250), 0⟩

def c1state : ClusterState := ⟨true, [("r1", c1conn)], [], [0]⟩

def c1ok : String → Addr → Bool := fun _ _ => true

def c2gone : Conn := ⟨"old", ("10.0.0.1", 5250), 0⟩

def c2state : ClusterState := ⟨true, [("old", c2gone)], [], [0]⟩

def c2ok : String → Addr → Bool := fun _ _ => true

def c2evl : List (String × List Addr) := [("new", [("10.0.0.2", 5250)])]

def c9state : ClusterState := ⟨true, [], [], []⟩

def c9ok : String → Addr → Bool := fun _ _ => false

def c9evl : List (String × List Addr) := [("r1", [("10.0.0.1", 5250)])]

def c1wevl : List (String × List Addr) := [("r1", [("10.0.0.1", 5250)])]

def c2wconn : Conn := ⟨"r1", ("10.0.0.1", 5250), 0⟩

def c2wstate : ClusterState := ⟨true, [("r1", c2wconn)], [], [0]⟩

def c2wok : String → Addr → Bool := fun _ _ => true

def c2wevl : List (String × List Addr) := [("r1", [("10.0.0.2", 5250)])]

def c9wstate : ClusterState := ⟨true, [], [], []⟩

def c9wok : String → Addr → Bool := fun _ _ => true

def c9wevl : List (String × List Addr) := [("r1", [("10.0.0.1", 5250)])]

theorem lookupKey_eraseKey_self {β : Type} (l : List (String × β)) (n : String) :
    lookupKey (eraseKey l n) n = none := by
  induction l with
  | nil => rfl
  | cons e rest ih =>
    obtain ⟨m, b⟩ := e
    by_cases h : m = n
    · simp [eraseKey, h, ih]
    · simp [eraseKey, lookupKey, h, ih]

theorem lookupKey_eraseKey_ne {β : Type} (l : List (String × β)) (n m : String)
    (h : m ≠ n) : lookupKey (eraseKey l n) m = lookupKey l m := by
  induction l with
  | nil => rfl
  | cons e rest ih =>
    obtain ⟨k, b⟩ := e
    by_cases hk : k = n
    · subst hk
      have hnm : ¬(k = m) := fun hx => h hx.symm
      simp [eraseKey, lookupKey, hnm, ih]
    · simp [eraseKey, hk, lookupKey, ih]

theorem lookupKey_append {β : Type} (l1 l2 : List (String × β)) (n : String) :
    lookupKey (l1 ++ l2) n =
      match lookupKey l1 n with
      | some b => some b
      | none => lookupKey l2 n := by
  induction l1 with
  | nil => rfl
  | cons e rest ih =>
    obtain ⟨m, b⟩ := e
    by_cases h : m = n
    · simp [lookupKey, h]
    · simp [lookupKey, h, ih]

theorem nodupKeys_cons {β : Type} {m : String} {b : β} {rest : List (String × β)} :
    nodupKeys ((m, b) :: rest) ↔ m ∉ rest.map Prod.fst ∧ nodupKeys rest := by
  unfold nodupKeys
  simp

theorem lookupKey_eq_none_iff {β : Type} (l : List (String × β)) (n : String) :
    lookupKey l n = none ↔ n ∉ l.map Prod.fst := by
  induction l with
  | nil => simp [lookupKey]
  | cons e rest ih =>
    obtain ⟨m, b⟩ := e
    by_cases h : m = n
    · simp [lookupKey, h]
    · have hnm : ¬(n = m) := fun hx => h hx.symm
      simp [lookupKey, h, hnm, ih]

theorem lookupKey_mem {β : Type} {l : List (String × β)} {n : String} {b : β}
    (h : lookupKey l n = some b) : (n, b) ∈ l := by
  induction l with
  | nil => simp [lookupKey] at h
  | cons e rest ih =>
    obtain ⟨m, c⟩ := e
    by_cases hm : m = n
    · subst hm
      simp [lookupKey] at h
      simp [h]
    · simp [lookupKey, hm] at h
      exact List.mem_cons_of_mem _ (ih h)

theorem mem_lookupKey {β : Type} {l : List (String × β)} {n : String} {b : β}
    (hnd : nodupKeys l) (h : (n, b) ∈ l) : lookupKey l n = some b := by
  induction l with
  | nil => simp at h
  | cons e rest ih =>
    obtain ⟨m, c⟩ := e
    rw [nodupKeys_cons] at hnd
    rcases List.mem_cons.mp h with heq | hmem
    · cases heq
      simp [lookupKey]
    · have hmn : ¬(m = n) := by
        intro hmn
        subst hmn
        exact hnd.1 (List.mem_map_of_mem Prod.fst hmem)
      simp [lookupKey, hmn]
      exact ih hnd.2 hmem

theorem mem_eraseKey {β : Type} {l : List (String × β)} {n : String}
    {x : String × β} (h : x ∈ eraseKey l n) : x ∈ l := by
  induction l with
  | nil => simp [eraseKey] at h
  | cons e rest ih =>
    obtain ⟨m, b⟩ := e
    by_cases hm : m = n
    · simp [eraseKey, hm] at h
      exact List.mem_cons_of_mem _ (ih h)
    · simp [eraseKey, hm] at h
      rcases h with heq | hmem
      · simp [heq]
      · exact List.mem_cons_of_mem _ (ih hmem)

theorem nodupKeys_eraseKey {β : Type} {l : List (String × β)} (n : String)
    (hnd : nodupKeys l) : nodupKeys (eraseKey l n) := by
  induction l with
  | nil => exact hnd
  | cons e rest ih =>
    obtain ⟨m, b⟩ := e
    rw [nodupKeys_cons] at hnd
    by_cases hm : m = n
    · simpa [eraseKey, hm] using ih hnd.2
    · show nodupKeys (if m = n then eraseKey rest n else (m, b) :: eraseKey rest n)
      rw [if_neg hm, nodupKeys_cons]
      refine ⟨?_, ih hnd.2⟩
      intro hmem
      obtain ⟨p, hp, hfst⟩ := List.mem_map.mp hmem
      exact hnd.1 (List.mem_map.mpr ⟨p, mem_eraseKey hp, hfst⟩)

theorem nodupKeys_append_single {β : Type} {l : List (String × β)} {n : String}
    {b : β} (hnd : nodupKeys l) (hn : lookupKey l n = none) :
    nodupKeys (l ++ [(n, b)]) := by
  unfold nodupKeys at hnd ⊢
  rw [List.map_append]
  refine List.Nodup.append hnd (by simp) ?_
  intro a ha hb
  simp at hb
  rw [hb] at ha
  exact (lookupKey_eq_none_iff l n).mp hn ha

theorem wfKeys_eraseKey {l : List (String × Conn)} (n : String) (hwf : wfKeys l) :
    wfKeys (eraseKey l n) :=
  fun m c h => hwf m c (mem_eraseKey h)

theorem wfKeys_append_single {l : List (String × Conn)} {c : Conn}
    (hwf : wfKeys l) : wfKeys (l ++ [(c.eventloop, c)]) := by
  intro m d h
  rcases List.mem_append.mp h with hmem | hmem
  · exact hwf m d hmem
  · simp at hmem
    rw [hmem.2, hmem.1]

/-- C4: the interval computation satisfies the five-row table:
`computeInterval(None, n) = LOW`; `computeInterval(0, n) = LOW`;
`computeInterval(k, 0) = LOW` for `k > 0`; `computeInterval(k, j) = MID`
for `0 < j < k`; `computeInterval(k, j) = HIGH` for `k > 0`, `j ≥ k`. -/
theorem C4_calculate_interval_table (n k j : Nat) (hk : 0 < k) :
    calculate_interval none n = INTERVAL_LOW ∧
    calculate_interval (some 0) n = INTERVAL_LOW ∧
    calculate_interval (some k) 0 = INTERVAL_LOW ∧
    (0 < j → j < k → calculate_interval (some k) j = INTERVAL_MID) ∧
    (k ≤ j → calculate_interval (some k) j = INTERVAL_HIGH) := by
  have hk0 : ¬(k = 0) := by omega
  refine ⟨rfl, rfl, ?_, ?_, ?_⟩
  · simp [calculate_interval, hk0]
  · intro hj hjk
    have hj0 : ¬(j = 0) := by omega
    simp [calculate_interval, hk0, hj0, hjk]
  · intro hjk
    have hj0 : ¬(j = 0) := by omega
    have hlt : ¬(j < k) := by omega
    simp [calculate_interval, hk0, hj0, hlt]

/-- Witness for C4 at concrete inputs. -/
theorem C4_calculate_interval_table_witness :
    calculate_interval (some 3) 1 = INTERVAL_MID :=
  ((C4_calculate_interval_table 0 3 1 (by decide)).2.2.2.1 (by decide) (by decide))

/-- C10: when a client's transport becomes established while the service
is not running, or while the registry already holds an entry for its
event-loop, the new connection closes its own transport and is never
added (existing entries untouched); only otherwise is it registered
under its event-loop name. -/
theorem C10_connectionMade (c : Conn) (s : ClusterState) :
    (s.running = false ∨ (lookupKey s.connections c.eventloop).isSome = true →
      (connectionMade c s).connections = s.connections ∧
      c ∈ (connectionMade c s).pendingClose) ∧
    (s.running = true → lookupKey s.connections c.eventloop = none →
      (connectionMade c s).connections = s.connections ++ [(c.eventloop, c)] ∧
      (connectionMade c s).pendingClose = s.pendingClose) := by
  constructor
  · rintro (h | h)
    · simp [connectionMade, h, loseConnection]
    · cases hr : s.running
      · simp [connectionMade, hr, loseConnection]
      · simp [connectionMade, hr, h, loseConnection]
  · intro hr hl
    simp [connectionMade, hr, hl, loseConnection]

/-- Witness for C10 at a concrete connection and state. -/
theorem C10_connectionMade_witness :
    (connectionMade c10conn c10state).connections
        = c10state.connections ++ [(c10conn.eventloop, c10conn)] ∧
    (connectionMade c10conn c10state).pendingClose = c10state.pendingClose :=
  (C10_connectionMade c10conn c10state).2 (by decide) (by decide)

/-- C8: `connectionLost` deletes the registry entry for its own
event-loop exactly when the registry currently maps that name to this
instance; a superseded connection's loss leaves the newer entry
untouched, and entries under other names are never affected. -/
theorem C8_connectionLost (c : Conn) (s : ClusterState) :
    ((∃ c2, lookupKey s.connections c.eventloop = some c2 ∧ c2.connId = c.connId) →
      lookupKey (connectionLost c s).connections c.eventloop = none) ∧
    (∀ c2, lookupKey s.connections c.eventloop = some c2 → c2.connId ≠ c.connId →
      (connectionLost c s).connections = s.connections) ∧
    (lookupKey s.connections c.eventloop = none →
      (connectionLost c s).connections = s.connections) ∧
    (∀ n, n ≠ c.eventloop →
      lookupKey (connectionLost c s).connections n = lookupKey s.connections n) := by
  refine ⟨?_, ?_, ?_, ?_⟩
  · rintro ⟨c2, hl, hid⟩
    simp [connectionLost, hl, hid, lookupKey_eraseKey_self]
  · intro c2 hl hid
    simp [connectionLost, hl, hid]
  · intro hl
    simp [connectionLost, hl]
  · intro n hn
    unfold connectionLost
    cases hl : lookupKey s.connections c.eventloop with
    | none => rfl
    | some c2 =>
      by_cases hid : c2.connId = c.connId
      · simp [hid, lookupKey_eraseKey_ne _ _ _ hn]
      · simp [hid]

/-- Witness for C8 at a concrete connection and state. -/
theorem C8_connectionLost_witness :
    lookupKey (connectionLost c8conn c8state).connections c8conn.eventloop = none :=
  (C8_connectionLost c8conn c8state).1 ⟨c8conn, by decide, rfl⟩

/-- C5: after the TLS upgrade the identity result carries the remote
name under `"ident"`; when it differs from the event-loop this client
dialed, the transport is closed and, once its loss is delivered, the
registry holds no entry for that event-loop (the speculatively added
entry is removed). -/
theorem C5_identity_mismatch (c : Conn) (s : ClusterState) (remoteIdent : String)
    (hreg : lookupKey s.connections c.eventloop = some c)
    (hne : remoteIdent ≠ c.eventloop) :
    c ∈ (secureConnection c (identifyResult remoteIdent) s).pendingClose ∧
    lookupKey (connectionLost c
        (secureConnection c (identifyResult remoteIdent) s)).connections
      c.eventloop = none := by
  have hsec : secureConnection c (identifyResult remoteIdent) s = loseConnection c s := by
    simp [secureConnection, identifyResult, lookupKey]
  rw [hsec]
  constructor
  · simp [loseConnection]
  · simp [connectionLost, loseConnection, hreg, lookupKey_eraseKey_self]

/-- Witness for C5: a remote reporting `region2` on a connection dialing
`region1`. -/
theorem C5_identity_mismatch_witness :
    c5conn ∈ (secureConnection c5conn (identifyResult "region2") c5state).pendingClose ∧
    lookupKey (connectionLost c5conn
        (secureConnection c5conn (identifyResult "region2") c5state)).connections
      c5conn.eventloop = none :=
  C5_identity_mismatch c5conn c5state "region2" (by decide) (by decide)

/-- C6 counterexample: with an empty `Open` set but a non-empty registry
(one connection still authenticating), `getClient` does not raise
`NoConnectionsAvailable` — it returns a client wrapping the non-`Open`
connection, contradicting the claim that selection fails exactly when
the `Open` set is empty and draws only from `Open` connections. -/
theorem C6_counterexample :
    openConns c6state = [] ∧
    getClient c6state 0 = GetClientResult.ok ⟨c6conn⟩ := by
  decide

/-- C6 (amended): `getClient` raises `NoConnectionsAvailable` exactly
when the registry is empty; otherwise it returns a client wrapping the
entry of a point-in-time snapshot of all registry values (whatever their
state) selected by the random draw, and every snapshot entry is returned
under some draw. -/
theorem C6_getClient_amended (s : ClusterState) (k : Nat) :
    (getClient s k = GetClientResult.NoConnectionsAvailable ↔ s.connections = []) ∧
    (∀ cl, getClient s k = GetClientResult.ok cl →
      cl.conn ∈ s.connections.map Prod.snd) ∧
    (∀ j, (hj : j < (s.connections.map Prod.snd).length) →
      getClient s j = GetClientResult.ok ⟨(s.connections.map Prod.snd).get ⟨j, hj⟩⟩) := by
  refine ⟨?_, ?_, ?_⟩
  · cases hc : s.connections with
    | nil => simp [getClient, hc]
    | cons e rest =>
      constructor
      · intro h
        have hlen : (s.connections.map Prod.snd).length ≠ 0 := by simp [hc]
        have hlt : k % (s.connections.map Prod.snd).length
            < (s.connections.map Prod.snd).length :=
          Nat.mod_lt _ (Nat.pos_of_ne_zero hlen)
        have hget := List.get?_eq_get hlt
        rw [getClient] at h
        simp only [List.isEmpty_eq_true] at h
        rw [if_neg (by simp [hc]), hget] at h
        cases h
      · intro h
        exact absurd h (by simp)
  · intro cl h
    rw [getClient] at h
    by_cases he : (s.connections.map Prod.snd).isEmpty
    · rw [if_pos he] at h
      cases h
    · rw [if_neg he] at h
      cases hg : (s.connections.map Prod.snd).get? (k % (s.connections.map Prod.snd).length) with
      | none => rw [hg] at h; cases h
      | some c =>
        rw [hg] at h
        cases h
        exact List.get?_mem hg
  · intro j hj
    have hne : ¬(s.connections.map Prod.snd).isEmpty := by
      rw [List.isEmpty_iff_length_eq_zero]
      omega
    have hmod : j % (s.connections.map Prod.snd).length = j := Nat.mod_eq_of_lt hj
    rw [getClient, if_neg hne, hmod, List.get?_eq_get hj]

/-- Witness for C6 (amended) at the concrete state of the
counterexample. -/
theorem C6_getClient_amended_witness :
    getClient c6state 0 = GetClientResult.ok ⟨(c6state.connections.map Prod.snd).get ⟨0, by decide⟩⟩ :=
  (C6_getClient_amended c6state 0).2.2 0 (by decide)

/-- C7 counterexample: a successful fetch whose body lacks the
`"eventloops"` key (`info = none`: the `KeyError` from
`info["eventloops"]` lands in the bare `except:`) is handled by the
discovery-failed rule — `_update_interval(None, ...)`, no reconciliation,
no teardown — whereas an empty `"eventloops"` object reconciles against
the empty topology (dropping the registered connection) and reports
`some 0` endpoints.  The claim that the absent key behaves like the
empty topology is therefore false at this input. -/
theorem C7_counterexample :
    (update c7ok none c7state 1).numEventloopsArg = none ∧
    (update c7ok none c7state 1).state = c7state ∧
    (update c7ok (some []) c7state 1).numEventloopsArg = some 0 ∧
    (update c7ok (some []) c7state 1).state.pendingClose = [c7conn] := by
  decide

/-- C7 (amended): a fetch outcome with no `"eventloops"` key takes the
error path of `update`: the state is untouched and the interval is
computed by the discovery-failed rule (`None` endpoints, giving `LOW`);
an empty `"eventloops"` object is fed to `_update_connections` as an
empty topology and the interval is computed from `some 0` endpoints,
also giving `LOW` via the zero-endpoint rule. -/
theorem C7_update_amended (ok : String → Addr → Bool) (s : ClusterState) (nid : Nat) :
    (update ok none s nid).state = s ∧
    (update ok none s nid).numEventloopsArg = none ∧
    calculate_interval (update ok none s nid).numEventloopsArg
      (update ok none s nid).numConnectionsArg = INTERVAL_LOW ∧
    (update ok (some []) s nid).state = (update_connections ok [] s nid).state ∧
    (update ok (some []) s nid).numEventloopsArg = some 0 ∧
    calculate_interval (update ok (some []) s nid).numEventloopsArg
      (update ok (some []) s nid).numConnectionsArg = INTERVAL_LOW :=
  ⟨rfl, rfl, rfl, rfl, rfl, rfl⟩

/-- C3: evaluation of the code at the scenario input.  With `region1`
open at address A and the topology now `region1 -> [B]`, a single pass
initiates teardown of the A-connection (first loop) but makes no
connect attempt at all: the connect loop's `eventloop not in
self.connections` test still sees the old entry, because
`_drop_connection` only calls `transport.loseConnection()` and the
registry entry is removed only when `connectionLost` is delivered later.
The pass therefore does not establish a connection to B, contrary to the
claim and to the method's own docstring ("If not (b), immediately drop
the connection and proceed as if not (a)"). -/
theorem C3_single_pass_no_reconnect :
    (update_connections c3ok [("region1", [c3addrB])] c3state 1).state.connections
        = [("region1", c3connA)] ∧
    (update_connections c3ok [("region1", [c3addrB])] c3state 1).state.pendingClose
        = [c3connA] ∧
    (update_connections c3ok [("region1", [c3addrB])] c3state 1).trace
        = [RAction.dropStale c3connA] := by
  decide

/-- C1 counterexample: reconciling against a topology that no longer
advertises `r1` leaves the `r1` entry in the registry when the pass
completes (its teardown is initiated but the entry is only removed when
`connectionLost` fires later), so at pass completion the registry holds
an entry whose address is not in the desired topology's (non-existent)
address list for its name — the claimed invariant fails at the instant
the pass completes. -/
theorem C1_counterexample :
    lookupKey (update_connections c1ok [] c1state 1).state.connections "r1" = some c1conn ∧
    lookupKey ([] : List (String × List Addr)) "r1" = none := by
  decide

/-- C2 counterexample: with registry entry `old` (absent from the
desired topology) and desired name `new` (absent from the registry), the
pass performs the connect attempt for `new` *before* dropping `old`
(the absent-name drop is the third loop of `_update_connections`), and
the drop does not remove the `old` entry from the registry — contrary to
the claim that every such entry is removed immediately, before any
connect attempt. -/
theorem C2_counterexample :
    (update_connections c2ok c2evl c2state 1).trace
        = [RAction.connectAttempt "new" ("10.0.0.2", 5250) true, RAction.dropGone c2gone] ∧
    lookupKey (update_connections c2ok c2evl c2state 1).state.connections "old"
        = some c2gone := by
  decide

theorem lookupKey_append_single_ne {β : Type} (l : List (String × β)) (m n : String)
    (b : β) (h : n ≠ m) : lookupKey (l ++ [(m, b)]) n = lookupKey l n := by
  rw [lookupKey_append]
  cases hl : lookupKey l n with
  | some c => rfl
  | none =>
    have hm : ¬(m = n) := fun hx => h hx.symm
    simp [lookupKey, hm]

theorem lookupKey_append_single_self {β : Type} (l : List (String × β)) (m : String)
    (b : β) (h : lookupKey l m = none) : lookupKey (l ++ [(m, b)]) m = some b := by
  rw [lookupKey_append, h]
  simp [lookupKey]

theorem lookupKey_append_some {β : Type} {l : List (String × β)} {n : String} {b : β}
    (l2 : List (String × β)) (h : lookupKey l n = some b) :
    lookupKey (l ++ l2) n = some b := by
  rw [lookupKey_append, h]

theorem foldl_inv {α β : Type} (f : α → β → α) (P : α → Prop) :
    ∀ (l : List β), (∀ a b, b ∈ l → P a → P (f a b)) → ∀ a, P a → P (l.foldl f a) := by
  intro l
  induction l with
  | nil => intro _ a ha; exact ha
  | cons e rest ih =>
    intro h a ha
    exact ih (fun a2 b hb => h a2 b (List.mem_cons_of_mem _ hb)) (f a e)
      (h a e (List.mem_cons_self _ _) ha)

theorem connectionMade_cases (c : Conn) (s : ClusterState) :
    connectionMade c s = loseConnection c s ∨
    connectionMade c s = { s with connections := s.connections ++ [(c.eventloop, c)] } := by
  unfold connectionMade
  by_cases h1 : s.running = false
  · simp [h1]
  · by_cases h2 : (lookupKey s.connections c.eventloop).isSome
    · simp [h1, h2]
    · simp [h1, h2]

theorem connectionMade_lookup_some_mono {s : ClusterState} {n : String} {d : Conn}
    (c : Conn) (h : lookupKey s.connections n = some d) :
    lookupKey (connectionMade c s).connections n = some d := by
  rcases connectionMade_cases c s with hc | hc
  · rw [hc]; exact h
  · rw [hc]; exact lookupKey_append_some _ h

theorem connectionMade_pending_mono {s : ClusterState} {d : Conn} (c : Conn)
    (h : d ∈ s.pendingClose) : d ∈ (connectionMade c s).pendingClose := by
  rcases connectionMade_cases c s with hc | hc
  · rw [hc]; exact List.mem_cons_of_mem _ h
  · rw [hc]; exact h

theorem connectionLost_connections_cases (c : Conn) (s : ClusterState) :
    (connectionLost c s).connections = s.connections ∨
    (connectionLost c s).connections = eraseKey s.connections c.eventloop := by
  cases hl : lookupKey s.connections c.eventloop with
  | none => left; simp [connectionLost, hl]
  | some c2 =>
    by_cases h : c2.connId = c.connId
    · right; simp [connectionLost, hl, h]
    · left; simp [connectionLost, hl, h]

theorem connectionLost_lookup_some {c : Conn} {s : ClusterState} {n : String} {d : Conn}
    (h : lookupKey (connectionLost c s).connections n = some d) :
    lookupKey s.connections n = some d := by
  rcases connectionLost_connections_cases c s with hc | hc
  · rw [hc] at h; exact h
  · rw [hc] at h
    by_cases hn : n = c.eventloop
    · rw [hn, lookupKey_eraseKey_self] at h; cases h
    · rw [lookupKey_eraseKey_ne _ _ _ hn] at h; exact h

theorem connectionLost_lookup_none {c : Conn} {s : ClusterState} {n : String}
    (h : lookupKey s.connections n = none) :
    lookupKey (connectionLost c s).connections n = none := by
  rcases connectionLost_connections_cases c s with hc | hc
  · rw [hc]; exact h
  · rw [hc]
    by_cases hn : n = c.eventloop
    · rw [hn, lookupKey_eraseKey_self]
    · rw [lookupKey_eraseKey_ne _ _ _ hn]; exact h

theorem connectionLost_lookup_ne {c : Conn} {s : ClusterState} {n : String}
    (hn : n ≠ c.eventloop) :
    lookupKey (connectionLost c s).connections n = lookupKey s.connections n := by
  rcases connectionLost_connections_cases c s with hc | hc
  · rw [hc]
  · rw [hc, lookupKey_eraseKey_ne _ _ _ hn]

theorem connectionLost_nodup {c : Conn} {s : ClusterState}
    (h : nodupKeys s.connections) : nodupKeys (connectionLost c s).connections := by
  rcases connectionLost_connections_cases c s with hc | hc
  · rw [hc]; exact h
  · rw [hc]; exact nodupKeys_eraseKey _ h

theorem deliverAll_lookup_some {n : String} {d : Conn} :
    ∀ (l : List Conn) (s : ClusterState),
      lookupKey (deliverAll l s).connections n = some d →
      lookupKey s.connections n = some d := by
  intro l
  induction l with
  | nil => intro s h; exact h
  | cons c rest ih =>
    intro s h
    exact connectionLost_lookup_some (ih (connectionLost c s) h)

theorem deliverAll_lookup_none {n : String} :
    ∀ (l : List Conn) (s : ClusterState),
      lookupKey s.connections n = none →
      lookupKey (deliverAll l s).connections n = none := by
  intro l
  induction l with
  | nil => intro s h; exact h
  | cons c rest ih =>
    intro s h
    exact ih (connectionLost c s) (connectionLost_lookup_none h)

theorem deliverAll_gone :
    ∀ (l : List Conn) (s : ClusterState) (c : Conn), c ∈ l →
      lookupKey s.connections c.eventloop = some c →
      lookupKey (deliverAll l s).connections c.eventloop = none := by
  intro l
  induction l with
  | nil =>
    intro s c hc
    simp at hc
  | cons d rest ih =>
    intro s c hc hl
    rcases List.mem_cons.mp hc with heq | hmem
    · subst heq
      have h2 : lookupKey (connectionLost c s).connections c.eventloop = none := by
        simp [connectionLost, hl, lookupKey_eraseKey_self]
      exact deliverAll_lookup_none rest _ h2
    · cases hl2 : lookupKey (connectionLost d s).connections c.eventloop with
      | none => exact deliverAll_lookup_none rest _ hl2
      | some c3 =>
        have hc3 : c3 = c := by
          have hs := connectionLost_lookup_some hl2
          rw [hl] at hs
          cases hs
          rfl
        rw [hc3] at hl2
        exact ih _ c hmem hl2

theorem deliverAll_keep :
    ∀ (l : List Conn) (s : ClusterState) (n : String) (c : Conn),
      lookupKey s.connections n = some c →
      (∀ d ∈ l, d.eventloop ≠ n) →
      lookupKey (deliverAll l s).connections n = some c := by
  intro l
  induction l with
  | nil => intro s n c hl _; exact hl
  | cons d rest ih =>
    intro s n c hl hne
    have h2 : lookupKey (connectionLost d s).connections n = some c := by
      rw [connectionLost_lookup_ne (fun hx => hne d (List.mem_cons_self _ _) hx.symm)]
      exact hl
    exact ih _ n c h2 (fun d2 h2 => hne d2 (List.mem_cons_of_mem _ h2))

theorem deliverAll_nodup :
    ∀ (l : List Conn) (s : ClusterState), nodupKeys s.connections →
      nodupKeys (deliverAll l s).connections := by
  intro l
  induction l with
  | nil => intro s h; exact h
  | cons d rest ih =>
    intro s h
    exact ih _ (connectionLost_nodup h)

theorem dropStaleStep_fields (p : ClusterState × List RAction) (e : String × List Addr) :
    (dropStaleStep p e).1.connections = p.1.connections ∧
    (dropStaleStep p e).1.running = p.1.running ∧
    (dropStaleStep p e).1.secured = p.1.secured := by
  cases hl : lookupKey p.1.connections e.1 with
  | none => simp [dropStaleStep, hl]
  | some c =>
    by_cases h : c.address ∈ e.2
    · simp [dropStaleStep, hl, h]
    · simp [dropStaleStep, hl, h, loseConnection]

theorem dropStaleStep_pending_mono {p : ClusterState × List RAction}
    (e : String × List Addr) {d : Conn} (hd : d ∈ p.1.pendingClose) :
    d ∈ (dropStaleStep p e).1.pendingClose := by
  cases hl : lookupKey p.1.connections e.1 with
  | none => simp [dropStaleStep, hl]; exact hd
  | some c =>
    by_cases h : c.address ∈ e.2
    · simp [dropStaleStep, hl, h]; exact hd
    · simp [dropStaleStep, hl, h, loseConnection]
      exact Or.inr hd

theorem dropStalePhase_fields (evl : List (String × List Addr)) (s : ClusterState) :
    (dropStalePhase evl s).1.connections = s.connections ∧
    (dropStalePhase evl s).1.running = s.running ∧
    (dropStalePhase evl s).1.secured = s.secured := by
  unfold dropStalePhase
  refine foldl_inv dropStaleStep
    (fun p => p.1.connections = s.connections ∧ p.1.running = s.running ∧
      p.1.secured = s.secured) evl ?_ (s, []) ⟨rfl, rfl, rfl⟩
  intro a b _ ha
  obtain ⟨h1, h2, h3⟩ := dropStaleStep_fields a b
  exact ⟨h1.trans ha.1, h2.trans ha.2.1, h3.trans ha.2.2⟩

theorem dropStalePhase_pending_complete (evl : List (String × List Addr))
    (s : ClusterState) {n : String} {addrs : List Addr} {c : Conn}
    (hmem : (n, addrs) ∈ evl) (hl : lookupKey s.connections n = some c)
    (hna : c.address ∉ addrs) : c ∈ (dropStalePhase evl s).1.pendingClose := by
  obtain ⟨l1, l2, hsplit⟩ := List.append_of_mem hmem
  unfold dropStalePhase
  rw [hsplit, List.foldl_append, List.foldl_cons]
  have hc1 : (l1.foldl dropStaleStep (s, [])).1.connections = s.connections :=
    foldl_inv dropStaleStep (fun p => p.1.connections = s.connections) l1
      (fun a b _ ha => (dropStaleStep_fields a b).1.trans ha) (s, []) rfl
  have hstep : c ∈ (dropStaleStep (l1.foldl dropStaleStep (s, [])) (n, addrs)).1.pendingClose := by
    have hl2 : lookupKey (l1.foldl dropStaleStep (s, [])).1.connections n = some c := by
      rw [hc1]; exact hl
    simp [dropStaleStep, hl2, hna, loseConnection]
  exact foldl_inv dropStaleStep (fun p => c ∈ p.1.pendingClose) l2
    (fun a b _ ha => dropStaleStep_pending_mono b ha) _ hstep

theorem dropStalePhase_pending_sound (evl : List (String × List Addr))
    (s : ClusterState) {d : Conn}
    (hd : d ∈ (dropStalePhase evl s).1.pendingClose) :
    d ∈ s.pendingClose ∨ ∃ n addrs, (n, addrs) ∈ evl ∧
      lookupKey s.connections n = some d ∧ d.address ∉ addrs := by
  have hres := foldl_inv dropStaleStep
    (fun p => p.1.connections = s.connections ∧
      ∀ d2 ∈ p.1.pendingClose, d2 ∈ s.pendingClose ∨ ∃ n addrs, (n, addrs) ∈ evl ∧
        lookupKey s.connections n = some d2 ∧ d2.address ∉ addrs)
    evl ?_ (s, []) ⟨rfl, fun d2 h2 => Or.inl h2⟩
  · exact hres.2 d hd
  · intro p e he hP
    refine ⟨(dropStaleStep_fields p e).1.trans hP.1, ?_⟩
    intro d2 h2
    cases hl : lookupKey p.1.connections e.1 with
    | none =>
      rw [show dropStaleStep p e = p by simp [dropStaleStep, hl]] at h2
      exact hP.2 d2 h2
    | some c =>
      by_cases h : c.address ∈ e.2
      · rw [show dropStaleStep p e = p by simp [dropStaleStep, hl, h]] at h2
        exact hP.2 d2 h2
      · have hstep : (dropStaleStep p e).1.pendingClose = c :: p.1.pendingClose := by
          simp [dropStaleStep, hl, h, loseConnection]
        rw [hstep] at h2
        rcases List.mem_cons.mp h2 with heq | hmem
        · subst heq
          refine Or.inr ⟨e.1, e.2, ?_, ?_, h⟩
          · rw [Prod.mk.eta]; exact he
          · rw [← hP.1]; exact hl
        · exact hP.2 d2 hmem

theorem dropStalePhase_trace_sound (evl : List (String × List Addr))
    (s : ClusterState) {a : RAction} (ha : a ∈ (dropStalePhase evl s).2) :
    ∃ n addrs c, a = RAction.dropStale c ∧ (n, addrs) ∈ evl ∧
      lookupKey s.connections n = some c ∧ c.address ∉ addrs := by
  have hres := foldl_inv dropStaleStep
    (fun p => p.1.connections = s.connections ∧
      ∀ a2 ∈ p.2, ∃ n addrs c, a2 = RAction.dropStale c ∧ (n, addrs) ∈ evl ∧
        lookupKey s.connections n = some c ∧ c.address ∉ addrs)
    evl ?_ (s, []) ⟨rfl, by simp⟩
  · exact hres.2 a ha
  · intro p e he hP
    refine ⟨(dropStaleStep_fields p e).1.trans hP.1, ?_⟩
    intro a2 h2
    cases hl : lookupKey p.1.connections e.1 with
    | none =>
      rw [show dropStaleStep p e = p by simp [dropStaleStep, hl]] at h2
      exact hP.2 a2 h2
    | some c =>
      by_cases h : c.address ∈ e.2
      · rw [show dropStaleStep p e = p by simp [dropStaleStep, hl, h]] at h2
        exact hP.2 a2 h2
      · have hstep : (dropStaleStep p e).2 = p.2 ++ [RAction.dropStale c] := by
          simp [dropStaleStep, hl, h]
        rw [hstep] at h2
        rcases List.mem_append.mp h2 with hmem | hmem
        · exact hP.2 a2 hmem
        · refine ⟨e.1, e.2, c, by simpa using hmem, ?_, ?_, h⟩
          · rw [Prod.mk.eta]; exact he
          · rw [← hP.1]; exact hl

theorem dropGoneStep_fields (names : List String) (p : ClusterState × List RAction)
    (e : String × Conn) :
    (dropGoneStep names p e).1.connections = p.1.connections ∧
    (dropGoneStep names p e).1.running = p.1.running ∧
    (dropGoneStep names p e).1.secured = p.1.secured := by
  by_cases h : e.1 ∈ names
  · simp [dropGoneStep, h]
  · simp [dropGoneStep, h, loseConnection]

theorem dropGoneStep_pending_mono {names : List String}
    {p : ClusterState × List RAction} (e : String × Conn) {d : Conn}
    (hd : d ∈ p.1.pendingClose) : d ∈ (dropGoneStep names p e).1.pendingClose := by
  by_cases h : e.1 ∈ names
  · simp [dropGoneStep, h]; exact hd
  · simp [dropGoneStep, h, loseConnection]
    exact Or.inr hd

theorem dropGonePhase_fields (evl : List (String × List Addr)) (s : ClusterState) :
    (dropGonePhase evl s).1.connections = s.connections ∧
    (dropGonePhase evl s).1.running = s.running ∧
    (dropGonePhase evl s).1.secured = s.secured := by
  unfold dropGonePhase
  refine foldl_inv (dropGoneStep (evl.map Prod.fst))
    (fun p => p.1.connections = s.connections ∧ p.1.running = s.running ∧
      p.1.secured = s.secured) s.connections ?_ (s, []) ⟨rfl, rfl, rfl⟩
  intro a b _ ha
  obtain ⟨h1, h2, h3⟩ := dropGoneStep_fields _ a b
  exact ⟨h1.trans ha.1, h2.trans ha.2.1, h3.trans ha.2.2⟩

theorem dropGonePhase_pending_mono (evl : List (String × List Addr))
    (s : ClusterState) {d : Conn} (hd : d ∈ s.pendingClose) :
    d ∈ (dropGonePhase evl s).1.pendingClose := by
  unfold dropGonePhase
  exact foldl_inv (dropGoneStep (evl.map Prod.fst)) (fun p => d ∈ p.1.pendingClose)
    s.connections (fun a b _ ha => dropGoneStep_pending_mono b ha) (s, []) hd

theorem dropGonePhase_pending_complete (evl : List (String × List Addr))
    (s : ClusterState) {m : String} {c : Conn}
    (hmem : (m, c) ∈ s.connections) (hm : m ∉ evl.map Prod.fst) :
    c ∈ (dropGonePhase evl s).1.pendingClose := by
  obtain ⟨l1, l2, hsplit⟩ := List.append_of_mem hmem
  unfold dropGonePhase
  rw [hsplit, List.foldl_append, List.foldl_cons]
  have hstep : c ∈ ((dropGoneStep (evl.map Prod.fst))
      (l1.foldl (dropGoneStep (evl.map Prod.fst)) (s, [])) (m, c)).1.pendingClose := by
    simp [dropGoneStep, hm, loseConnection]
  exact foldl_inv (dropGoneStep (evl.map Prod.fst)) (fun p => c ∈ p.1.pendingClose) l2
    (fun a b _ ha => dropGoneStep_pending_mono b ha) _ hstep

theorem dropGonePhase_pending_sound (evl : List (String × List Addr))
    (s : ClusterState) {d : Conn}
    (hd : d ∈ (dropGonePhase evl s).1.pendingClose) :
    d ∈ s.pendingClose ∨ ∃ m, (m, d) ∈ s.connections ∧ m ∉ evl.map Prod.fst := by
  have hres := foldl_inv (dropGoneStep (evl.map Prod.fst))
    (fun p => ∀ d2 ∈ p.1.pendingClose, d2 ∈ s.pendingClose ∨
      ∃ m, (m, d2) ∈ s.connections ∧ m ∉ evl.map Prod.fst)
    s.connections ?_ (s, []) (fun d2 h2 => Or.inl h2)
  · exact hres d hd
  · intro p e he hP
    intro d2 h2
    by_cases h : e.1 ∈ evl.map Prod.fst
    · rw [show dropGoneStep (evl.map Prod.fst) p e = p by simp [dropGoneStep, h]] at h2
      exact hP d2 h2
    · have hstep : (dropGoneStep (evl.map Prod.fst) p e).1.pendingClose
          = e.2 :: p.1.pendingClose := by
        simp [dropGoneStep, h, loseConnection]
      rw [hstep] at h2
      rcases List.mem_cons.mp h2 with heq | hmem
      · subst heq
        exact Or.inr ⟨e.1, by rw [Prod.mk.eta]; exact he, h⟩
      · exact hP d2 hmem

theorem dropGonePhase_trace_sound (evl : List (String × List Addr))
    (s : ClusterState) {a : RAction} (ha : a ∈ (dropGonePhase evl s).2) :
    ∃ c m, a = RAction.dropGone c ∧ (m, c) ∈ s.connections ∧
      m ∉ evl.map Prod.fst := by
  have hres := foldl_inv (dropGoneStep (evl.map Prod.fst))
    (fun p => ∀ a2 ∈ p.2, ∃ c m, a2 = RAction.dropGone c ∧ (m, c) ∈ s.connections ∧
      m ∉ evl.map Prod.fst)
    s.connections ?_ (s, []) (by simp)
  · exact hres a ha
  · intro p e he hP
    intro a2 h2
    by_cases h : e.1 ∈ evl.map Prod.fst
    · rw [show dropGoneStep (evl.map Prod.fst) p e = p by simp [dropGoneStep, h]] at h2
      exact hP a2 h2
    · have hstep : (dropGoneStep (evl.map Prod.fst) p e).2
          = p.2 ++ [RAction.dropGone e.2] := by
        simp [dropGoneStep, h]
      rw [hstep] at h2
      rcases List.mem_append.mp h2 with hmem | hmem
      · exact hP a2 hmem
      · exact ⟨e.2, e.1, by simpa using hmem, by rw [Prod.mk.eta]; exact he, h⟩

theorem tryAddresses_state (ok : String → Addr → Bool) (name : String) :
    ∀ (addrs : List Addr) (s : ClusterState) (nid : Nat) (tr : List RAction),
      s.running = true → lookupKey s.connections name = none →
      (tryAddresses ok name addrs (s, nid, tr)).1 = s ∨
      ∃ a k, a ∈ addrs ∧ ok name a = true ∧
        (tryAddresses ok name addrs (s, nid, tr)).1 =
          { s with connections := s.connections ++ [(name, Conn.mk name a k)] } := by
  intro addrs
  induction addrs with
  | nil => intro s nid tr _ _; exact Or.inl rfl
  | cons a rest ih =>
    intro s nid tr hr hl
    by_cases ha : ok name a = true
    · right
      refine ⟨a, nid, List.mem_cons_self _ _, ha, ?_⟩
      have hcm : connectionMade ⟨name, a, nid⟩ s
          = { s with connections := s.connections ++ [(name, Conn.mk name a nid)] } := by
        simp [connectionMade, hr, hl]
      simp [tryAddresses, ha, hcm]
    · have hstep : tryAddresses ok name (a :: rest) (s, nid, tr)
          = tryAddresses ok name rest
              (s, nid + 1, tr ++ [RAction.connectAttempt name a false]) := by
        simp [tryAddresses, ha]
      rw [hstep]
      rcases ih s (nid + 1) _ hr hl with h | ⟨a2, k, hmem, hok, heq⟩
      · exact Or.inl h
      · exact Or.inr ⟨a2, k, List.mem_cons_of_mem _ hmem, hok, heq⟩

theorem tryAddresses_fst_cases (ok : String → Addr → Bool) (name : String) :
    ∀ (addrs : List Addr) (s : ClusterState) (nid : Nat) (tr : List RAction),
      (tryAddresses ok name addrs (s, nid, tr)).1 = s ∨
      ∃ c, (tryAddresses ok name addrs (s, nid, tr)).1 = connectionMade c s := by
  intro addrs
  induction addrs with
  | nil => intro s nid tr; exact Or.inl rfl
  | cons a rest ih =>
    intro s nid tr
    by_cases ha : ok name a = true
    · exact Or.inr ⟨⟨name, a, nid⟩, by simp [tryAddresses, ha]⟩
    · rw [show tryAddresses ok name (a :: rest) (s, nid, tr)
          = tryAddresses ok name rest
              (s, nid + 1, tr ++ [RAction.connectAttempt name a false]) by
        simp [tryAddresses, ha]]
      exact ih s (nid + 1) _

theorem connectionMade_fields (c : Conn) (s : ClusterState) :
    (connectionMade c s).running = s.running ∧
    (connectionMade c s).secured = s.secured := by
  rcases connectionMade_cases c s with hc | hc <;> rw [hc] <;> exact ⟨rfl, rfl⟩

theorem connectStep_lookup_some_mono (ok : String → Addr → Bool)
    {p : ClusterState × Nat × List RAction} (e : String × List Addr)
    {n : String} {d : Conn} (h : lookupKey p.1.connections n = some d) :
    lookupKey (connectStep ok p e).1.connections n = some d := by
  unfold connectStep
  by_cases hg : (lookupKey p.1.connections e.1).isSome = true
  · simp only [hg, if_true]
    exact h
  · simp only [hg, if_false, Bool.false_eq_true]
    obtain ⟨ps, pn, pt⟩ := p
    rcases tryAddresses_fst_cases ok e.1 e.2 ps pn pt with hc | ⟨c, hc⟩
    · rw [hc]; exact h
    · rw [hc]; exact connectionMade_lookup_some_mono c h

theorem connectStep_pending_mono (ok : String → Addr → Bool)
    {p : ClusterState × Nat × List RAction} (e : String × List Addr)
    {d : Conn} (hd : d ∈ p.1.pendingClose) :
    d ∈ (connectStep ok p e).1.pendingClose := by
  unfold connectStep
  by_cases hg : (lookupKey p.1.connections e.1).isSome = true
  · simp only [hg, if_true]
    exact hd
  · simp only [hg, if_false, Bool.false_eq_true]
    obtain ⟨ps, pn, pt⟩ := p
    rcases tryAddresses_fst_cases ok e.1 e.2 ps pn pt with hc | ⟨c, hc⟩
    · rw [hc]; exact hd
    · rw [hc]; exact connectionMade_pending_mono c hd

theorem connectPhase_char (ok : String → Addr → Bool) (evl : List (String × List Addr))
    (s1 : ClusterState) (nid : Nat) (hr : s1.running = true)
    (hnd : nodupKeys s1.connections) (hwf : wfKeys s1.connections) :
    (connectPhase ok evl s1 nid).1.running = true ∧
    (connectPhase ok evl s1 nid).1.pendingClose = s1.pendingClose ∧
    (connectPhase ok evl s1 nid).1.secured = s1.secured ∧
    nodupKeys (connectPhase ok evl s1 nid).1.connections ∧
    wfKeys (connectPhase ok evl s1 nid).1.connections ∧
    ∀ n, lookupKey (connectPhase ok evl s1 nid).1.connections n
        = lookupKey s1.connections n ∨
      (lookupKey s1.connections n = none ∧
        ∃ c, lookupKey (connectPhase ok evl s1 nid).1.connections n = some c ∧
          c.eventloop = n ∧ ∃ addrs, (n, addrs) ∈ evl ∧ c.address ∈ addrs) := by
  unfold connectPhase
  refine foldl_inv (connectStep ok)
    (fun p => p.1.running = true ∧ p.1.pendingClose = s1.pendingClose ∧
      p.1.secured = s1.secured ∧ nodupKeys p.1.connections ∧ wfKeys p.1.connections ∧
      ∀ n, lookupKey p.1.connections n = lookupKey s1.connections n ∨
        (lookupKey s1.connections n = none ∧
          ∃ c, lookupKey p.1.connections n = some c ∧ c.eventloop = n ∧
            ∃ addrs, (n, addrs) ∈ evl ∧ c.address ∈ addrs))
    evl ?_ (s1, nid, []) ⟨hr, rfl, rfl, hnd, hwf, fun n => Or.inl rfl⟩
  intro p e he hP
  obtain ⟨hPr, hPp, hPs, hPnd, hPwf, hPl⟩ := hP
  unfold connectStep
  by_cases hg : (lookupKey p.1.connections e.1).isSome = true
  · simp only [hg, if_true]
    exact ⟨hPr, hPp, hPs, hPnd, hPwf, hPl⟩
  · simp only [hg, if_false, Bool.false_eq_true]
    have hl : lookupKey p.1.connections e.1 = none := by
      cases h2 : lookupKey p.1.connections e.1 with
      | none => rfl
      | some c => rw [h2] at hg; simp at hg
    obtain ⟨ps, pn, pt⟩ := p
    rcases tryAddresses_state ok e.1 e.2 ps pn pt hPr hl with hc | ⟨a, k, hamem, hok, hc⟩
    · rw [hc]
      exact ⟨hPr, hPp, hPs, hPnd, hPwf, hPl⟩
    · rw [hc]
      refine ⟨hPr, hPp, hPs, nodupKeys_append_single hPnd hl, ?_, ?_⟩
      · exact @wfKeys_append_single (ps, pn, pt).1.connections ⟨e.1, a, k⟩ hPwf
      intro n
      by_cases hne : n = e.1
      · subst hne
        right
        have hs1 : lookupKey s1.connections e.1 = none := by
          rcases hPl e.1 with hL | ⟨hnone, c2, hc2, _⟩
          · rw [← hL]; exact hl
          · rw [hl] at hc2; cases hc2
        refine ⟨hs1, ⟨e.1, a, k⟩, lookupKey_append_single_self _ _ _ hl, rfl,
          e.2, ?_, hamem⟩
        rw [Prod.mk.eta]
        exact he
      · rw [lookupKey_append_single_ne _ _ _ _ hne]
        exact hPl n

theorem connectPhase_running (ok : String → Addr → Bool) (evl : List (String × List Addr))
    (s1 : ClusterState) (nid : Nat) :
    (connectPhase ok evl s1 nid).1.running = s1.running := by
  unfold connectPhase
  refine foldl_inv (connectStep ok) (fun p => p.1.running = s1.running) evl ?_ _ rfl
  intro p e _ hp
  rw [← hp]
  unfold connectStep
  by_cases hg : (lookupKey p.1.connections e.1).isSome = true
  · simp only [hg, if_true]
  · simp only [hg, if_false, Bool.false_eq_true]
    obtain ⟨ps, pn, pt⟩ := p
    rcases tryAddresses_fst_cases ok e.1 e.2 ps pn pt with hc | ⟨c, hc⟩
    · rw [hc]
    · rw [hc]; exact (connectionMade_fields c ps).1

theorem connectStep_covers (ok : String → Addr → Bool)
    (p : ClusterState × Nat × List RAction) (n : String) (addrs : List Addr)
    (hr : p.1.running = true) (hok : ∀ m a2, ok m a2 = true) (hne : addrs ≠ []) :
    ∃ c, lookupKey (connectStep ok p (n, addrs)).1.connections n = some c := by
  obtain ⟨ps, pn, pt⟩ := p
  have hr2 : ps.running = true := hr
  by_cases hg : (lookupKey ps.connections n).isSome = true
  · obtain ⟨c, hc⟩ := Option.isSome_iff_exists.mp hg
    refine ⟨c, ?_⟩
    have hid : connectStep ok (ps, pn, pt) (n, addrs) = (ps, pn, pt) := by
      simp [connectStep, hg]
    rw [hid]
    exact hc
  · have hl : lookupKey ps.connections n = none := by
      cases h2 : lookupKey ps.connections n with
      | none => rfl
      | some c => rw [h2] at hg; simp at hg
    cases addrs with
    | nil => exact absurd rfl hne
    | cons a rest =>
      have hstep : connectStep ok (ps, pn, pt) (n, a :: rest)
          = (connectionMade ⟨n, a, pn⟩ ps, pn + 1,
             pt ++ [RAction.connectAttempt n a true]) := by
        simp [connectStep, hg, tryAddresses, hok n a]
      have hcm : connectionMade ⟨n, a, pn⟩ ps
          = { ps with connections := ps.connections ++ [(n, Conn.mk n a pn)] } := by
        simp [connectionMade, hr2, hl]
      refine ⟨⟨n, a, pn⟩, ?_⟩
      rw [hstep]
      show lookupKey (connectionMade ⟨n, a, pn⟩ ps).connections n = some ⟨n, a, pn⟩
      rw [hcm]
      exact lookupKey_append_single_self _ _ _ hl

theorem connectPhase_covered (ok : String → Addr → Bool) (evl : List (String × List Addr))
    (s1 : ClusterState) (nid : Nat) (hr : s1.running = true)
    (hok : ∀ m a2, ok m a2 = true) {n : String} {addrs : List Addr}
    (hmem : (n, addrs) ∈ evl) (hne : addrs ≠ []) :
    ∃ c, lookupKey (connectPhase ok evl s1 nid).1.connections n = some c := by
  obtain ⟨l1, l2, hsplit⟩ := List.append_of_mem hmem
  unfold connectPhase
  rw [hsplit, List.foldl_append, List.foldl_cons]
  have hr1 : (l1.foldl (connectStep ok) (s1, nid, [])).1.running = true := by
    have h2 := connectPhase_running ok l1 s1 nid
    unfold connectPhase at h2
    rw [h2]
    exact hr
  obtain ⟨c, hc⟩ := connectStep_covers ok (l1.foldl (connectStep ok) (s1, nid, []))
    n addrs hr1 hok hne
  refine ⟨c, ?_⟩
  exact foldl_inv (connectStep ok)
    (fun p => lookupKey p.1.connections n = some c) l2
    (fun a b _ ha => connectStep_lookup_some_mono ok b ha) _ hc

theorem tryAddresses_trace_sound (ok : String → Addr → Bool) (name : String) :
    ∀ (addrs : List Addr) (s : ClusterState) (nid : Nat) (tr : List RAction),
      ∀ x ∈ (tryAddresses ok name addrs (s, nid, tr)).2.2,
        x ∈ tr ∨ ∃ ad b, x = RAction.connectAttempt name ad b := by
  intro addrs
  induction addrs with
  | nil => intro s nid tr x hx; exact Or.inl hx
  | cons a rest ih =>
    intro s nid tr x hx
    by_cases ha : ok name a = true
    · rw [show tryAddresses ok name (a :: rest) (s, nid, tr)
          = (connectionMade ⟨name, a, nid⟩ s, nid + 1,
             tr ++ [RAction.connectAttempt name a true]) by
        simp [tryAddresses, ha]] at hx
      rcases List.mem_append.mp hx with h | h
      · exact Or.inl h
      · exact Or.inr ⟨a, true, by simpa using h⟩
    · rw [show tryAddresses ok name (a :: rest) (s, nid, tr)
          = tryAddresses ok name rest
              (s, nid + 1, tr ++ [RAction.connectAttempt name a false]) by
        simp [tryAddresses, ha]] at hx
      rcases ih s (nid + 1) _ x hx with h | h
      · rcases List.mem_append.mp h with h2 | h2
        · exact Or.inl h2
        · exact Or.inr ⟨a, false, by simpa using h2⟩
      · exact h.elim (fun ad hb => Or.inr ⟨ad, hb⟩)

theorem connectPhase_trace_sound (ok : String → Addr → Bool)
    (evl : List (String × List Addr)) (s1 : ClusterState) (nid : Nat)
    {x : RAction} (hx : x ∈ (connectPhase ok evl s1 nid).2.2) :
    ∃ nm ad b, x = RAction.connectAttempt nm ad b := by
  refine foldl_inv (connectStep ok)
    (fun p => ∀ x2 ∈ p.2.2, ∃ nm ad b, x2 = RAction.connectAttempt nm ad b)
    evl ?_ (s1, nid, []) (by simp) x hx
  intro p e _ hP x2 hx2
  by_cases hg : (lookupKey p.1.connections e.1).isSome = true
  · rw [show connectStep ok p e = p by simp [connectStep, hg]] at hx2
    exact hP x2 hx2
  · rw [show connectStep ok p e = tryAddresses ok e.1 e.2 p by
      simp [connectStep, hg]] at hx2
    obtain ⟨ps, pn, pt⟩ := p
    rcases tryAddresses_trace_sound ok e.1 e.2 ps pn pt x2 hx2 with h | h
    · exact hP x2 h
    · obtain ⟨ad, b, hb⟩ := h
      exact ⟨e.1, ad, b, hb⟩

theorem connectPhase_conns_ext (ok : String → Addr → Bool)
    (evl : List (String × List Addr)) (s1 : ClusterState) (nid : Nat) :
    ∃ ext, (connectPhase ok evl s1 nid).1.connections = s1.connections ++ ext := by
  refine foldl_inv (connectStep ok)
    (fun p => ∃ ext, p.1.connections = s1.connections ++ ext) evl ?_ (s1, nid, [])
    ⟨[], by simp⟩
  rintro p e _ ⟨ext, hext⟩
  by_cases hg : (lookupKey p.1.connections e.1).isSome = true
  · rw [show connectStep ok p e = p by simp [connectStep, hg]]
    exact ⟨ext, hext⟩
  · rw [show connectStep ok p e = tryAddresses ok e.1 e.2 p by
      simp [connectStep, hg]]
    obtain ⟨ps, pn, pt⟩ := p
    have hext2 : ps.connections = s1.connections ++ ext := hext
    rcases tryAddresses_fst_cases ok e.1 e.2 ps pn pt with hc | ⟨c, hc⟩
    · rw [hc]
      exact ⟨ext, hext2⟩
    · rw [hc]
      rcases connectionMade_cases c ps with hm | hm
      · rw [hm]
        exact ⟨ext, hext2⟩
      · rw [hm]
        refine ⟨ext ++ [(c.eventloop, c)], ?_⟩
        show ps.connections ++ [(c.eventloop, c)] = s1.connections ++ (ext ++ [(c.eventloop, c)])
        rw [hext2, List.append_assoc]

theorem pass_quiesce_char (ok : String → Addr → Bool) (evl : List (String × List Addr))
    (s : ClusterState) (nid : Nat)
    (hr : s.running = true) (hpc : s.pendingClose = [])
    (hnd : nodupKeys s.connections) (hwf : wfKeys s.connections)
    (hevl : nodupKeys evl) :
    nodupKeys (quiesce (update_connections ok evl s nid).state).connections ∧
    ∀ n c, lookupKey (quiesce (update_connections ok evl s nid).state).connections n
        = some c →
      ∃ addrs, lookupKey evl n = some addrs ∧ c.address ∈ addrs := by
  have hf1 := dropStalePhase_fields evl s
  have hs1run : (dropStalePhase evl s).1.running = true := by rw [hf1.2.1]; exact hr
  have hs1nd : nodupKeys (dropStalePhase evl s).1.connections := by rw [hf1.1]; exact hnd
  have hs1wf : wfKeys (dropStalePhase evl s).1.connections := by rw [hf1.1]; exact hwf
  obtain ⟨hP2run, hP2pend, hP2sec, hP2nd, hP2wf, hP2look⟩ :=
    connectPhase_char ok evl (dropStalePhase evl s).1 nid hs1run hs1nd hs1wf
  have hstate : (update_connections ok evl s nid).state
      = (dropGonePhase evl (connectPhase ok evl (dropStalePhase evl s).1 nid).1).1 := rfl
  have hs3conns : (update_connections ok evl s nid).state.connections
      = (connectPhase ok evl (dropStalePhase evl s).1 nid).1.connections := by
    rw [hstate]
    exact (dropGonePhase_fields evl _).1
  constructor
  · refine deliverAll_nodup _ _ ?_
    rw [hs3conns]
    exact hP2nd
  · intro n c h
    have h3 : lookupKey (update_connections ok evl s nid).state.connections n = some c :=
      deliverAll_lookup_some _ _ h
    have h2 : lookupKey (connectPhase ok evl (dropStalePhase evl s).1 nid).1.connections n
        = some c := by
      rw [← hs3conns]
      exact h3
    rcases hP2look n with hL | ⟨hnone, c2, hc2, hev, addrs, hmemevl, hin⟩
    · have hs : lookupKey s.connections n = some c := by
        rw [← hf1.1, ← hL]
        exact h2
      cases hevll : lookupKey evl n with
      | some addrs =>
        by_cases hin : c.address ∈ addrs
        · exact ⟨addrs, rfl, hin⟩
        · exfalso
          have hpend1 : c ∈ (dropStalePhase evl s).1.pendingClose :=
            dropStalePhase_pending_complete evl s (lookupKey_mem hevll) hs hin
          have hpend2 : c ∈ (connectPhase ok evl (dropStalePhase evl s).1 nid).1.pendingClose := by
            rw [hP2pend]
            exact hpend1
          have hpend3 : c ∈ (update_connections ok evl s nid).state.pendingClose := by
            rw [hstate]
            exact dropGonePhase_pending_mono evl _ hpend2
          have hevn : c.eventloop = n := hwf n c (lookupKey_mem hs)
          have hnone2 : lookupKey
              (quiesce (update_connections ok evl s nid).state).connections n = none := by
            have hgone := deliverAll_gone (update_connections ok evl s nid).state.pendingClose
              (update_connections ok evl s nid).state c hpend3 (by rw [hevn]; exact h3)
            rw [hevn] at hgone
            exact hgone
          rw [hnone2] at h
          cases h
      | none =>
        exfalso
        have hnk : n ∉ evl.map Prod.fst := (lookupKey_eq_none_iff evl n).mp hevll
        have hpend3 : c ∈ (update_connections ok evl s nid).state.pendingClose := by
          rw [hstate]
          exact dropGonePhase_pending_complete evl _ (lookupKey_mem h2) hnk
        have hevn : c.eventloop = n := hP2wf n c (lookupKey_mem h2)
        have hnone2 : lookupKey
            (quiesce (update_connections ok evl s nid).state).connections n = none := by
          have hgone := deliverAll_gone (update_connections ok evl s nid).state.pendingClose
            (update_connections ok evl s nid).state c hpend3 (by rw [hevn]; exact h3)
          rw [hevn] at hgone
          exact hgone
        rw [hnone2] at h
        cases h
    · rw [h2] at hc2
      have hcc : c = c2 := by injection hc2
      subst hcc
      exact ⟨addrs, mem_lookupKey hevl hmemevl, hin⟩

theorem pass_pending_names (ok : String → Addr → Bool) (evl : List (String × List Addr))
    (s : ClusterState) (nid : Nat)
    (hr : s.running = true) (hpc : s.pendingClose = [])
    (hnd : nodupKeys s.connections) (hwf : wfKeys s.connections)
    (hevl : nodupKeys evl)
    (hstale : ∀ n c addrs, lookupKey s.connections n = some c →
      lookupKey evl n = some addrs → c.address ∈ addrs) :
    ∀ d ∈ (update_connections ok evl s nid).state.pendingClose,
      d.eventloop ∉ evl.map Prod.fst := by
  intro d hd
  have hf1 := dropStalePhase_fields evl s
  have hs1run : (dropStalePhase evl s).1.running = true := by rw [hf1.2.1]; exact hr
  have hs1nd : nodupKeys (dropStalePhase evl s).1.connections := by rw [hf1.1]; exact hnd
  have hs1wf : wfKeys (dropStalePhase evl s).1.connections := by rw [hf1.1]; exact hwf
  obtain ⟨hP2run, hP2pend, hP2sec, hP2nd, hP2wf, hP2look⟩ :=
    connectPhase_char ok evl (dropStalePhase evl s).1 nid hs1run hs1nd hs1wf
  have hstate : (update_connections ok evl s nid).state
      = (dropGonePhase evl (connectPhase ok evl (dropStalePhase evl s).1 nid).1).1 := rfl
  rw [hstate] at hd
  rcases dropGonePhase_pending_sound evl _ hd with hp2 | ⟨m, hm, hmk⟩
  · rw [hP2pend] at hp2
    rcases dropStalePhase_pending_sound evl s hp2 with h0 | ⟨n2, addrs2, hmem2, hl2, hna2⟩
    · rw [hpc] at h0
      simp at h0
    · exact absurd (hstale n2 d addrs2 hl2 (mem_lookupKey hevl hmem2)) hna2
  · have hde : d.eventloop = m := hP2wf m d hm
    rw [hde]
    exact hmk

theorem pass_quiesce_covered (ok : String → Addr → Bool) (evl : List (String × List Addr))
    (s : ClusterState) (nid : Nat)
    (hr : s.running = true) (hpc : s.pendingClose = [])
    (hnd : nodupKeys s.connections) (hwf : wfKeys s.connections)
    (hevl : nodupKeys evl)
    (hstale : ∀ n c addrs, lookupKey s.connections n = some c →
      lookupKey evl n = some addrs → c.address ∈ addrs)
    (hok : ∀ m a2, ok m a2 = true)
    {n : String} {addrs : List Addr} (hmem : (n, addrs) ∈ evl) (hne2 : addrs ≠ []) :
    ∃ c, lookupKey (quiesce (update_connections ok evl s nid).state).connections n
      = some c := by
  have hf1 := dropStalePhase_fields evl s
  have hs1run : (dropStalePhase evl s).1.running = true := by rw [hf1.2.1]; exact hr
  obtain ⟨c, hc⟩ := connectPhase_covered ok evl (dropStalePhase evl s).1 nid hs1run hok
    hmem hne2
  have hstate : (update_connections ok evl s nid).state
      = (dropGonePhase evl (connectPhase ok evl (dropStalePhase evl s).1 nid).1).1 := rfl
  have hs3conns : (update_connections ok evl s nid).state.connections
      = (connectPhase ok evl (dropStalePhase evl s).1 nid).1.connections := by
    rw [hstate]
    exact (dropGonePhase_fields evl _).1
  have h3 : lookupKey (update_connections ok evl s nid).state.connections n = some c := by
    rw [hs3conns]
    exact hc
  have hkeep : ∀ d ∈ (update_connections ok evl s nid).state.pendingClose,
      d.eventloop ≠ n := by
    intro d hd heq
    have hnot := pass_pending_names ok evl s nid hr hpc hnd hwf hevl hstale d hd
    rw [heq] at hnot
    exact hnot (List.mem_map_of_mem Prod.fst hmem)
  exact ⟨c, deliverAll_keep _ _ n c h3 hkeep⟩

theorem pass_identity (ok : String → Addr → Bool) (evl : List (String × List Addr))
    (t : ClusterState) (nid2 : Nat)
    (hnodup : nodupKeys t.connections)
    (hchar : ∀ n c, lookupKey t.connections n = some c →
      ∃ addrs, lookupKey evl n = some addrs ∧ c.address ∈ addrs)
    (hcov : ∀ n addrs, (n, addrs) ∈ evl → addrs ≠ [] →
      ∃ c, lookupKey t.connections n = some c)
    (hevl : nodupKeys evl) :
    update_connections ok evl t nid2 = ⟨t, nid2, []⟩ := by
  have h1 : dropStalePhase evl t = (t, []) := by
    unfold dropStalePhase
    refine foldl_inv dropStaleStep (fun p => p = (t, [])) evl ?_ (t, []) rfl
    intro p e he hp
    subst hp
    cases hl : lookupKey t.connections e.1 with
    | none => simp [dropStaleStep, hl]
    | some c =>
      obtain ⟨addrs2, hlev, hin⟩ := hchar e.1 c hl
      have hle : lookupKey evl e.1 = some e.2 :=
        mem_lookupKey hevl (by rw [Prod.mk.eta]; exact he)
      rw [hle] at hlev
      have haeq : e.2 = addrs2 := by injection hlev
      rw [← haeq] at hin
      simp [dropStaleStep, hl, hin]
  have h2 : connectPhase ok evl t nid2 = (t, nid2, []) := by
    unfold connectPhase
    refine foldl_inv (connectStep ok) (fun p => p = (t, nid2, [])) evl ?_ _ rfl
    intro p e he hp
    subst hp
    by_cases hg : (lookupKey t.connections e.1).isSome = true
    · simp [connectStep, hg]
    · have hl : lookupKey t.connections e.1 = none := by
        cases hx : lookupKey t.connections e.1 with
        | none => rfl
        | some c => rw [hx] at hg; simp at hg
      have he2 : e.2 = [] := by
        by_contra hne2
        obtain ⟨c, hc⟩ := hcov e.1 e.2 (by rw [Prod.mk.eta]; exact he) hne2
        rw [hl] at hc
        cases hc
      simp [connectStep, hg, he2, tryAddresses]
  have h3 : dropGonePhase evl t = (t, []) := by
    unfold dropGonePhase
    refine foldl_inv (dropGoneStep (evl.map Prod.fst)) (fun p => p = (t, []))
      t.connections ?_ (t, []) rfl
    intro p e he hp
    subst hp
    have hln : lookupKey t.connections e.1 = some e.2 :=
      mem_lookupKey hnodup (by rw [Prod.mk.eta]; exact he)
    obtain ⟨addrs2, hlev, _⟩ := hchar e.1 e.2 hln
    have hk : e.1 ∈ evl.map Prod.fst := by
      by_contra hnk
      rw [(lookupKey_eq_none_iff evl e.1).mpr hnk] at hlev
      cases hlev
    simp [dropGoneStep, hk]
  have hrw : update_connections ok evl t nid2
      = ⟨(dropGonePhase evl (connectPhase ok evl (dropStalePhase evl t).1 nid2).1).1,
         (connectPhase ok evl (dropStalePhase evl t).1 nid2).2.1,
         (dropStalePhase evl t).2
           ++ (connectPhase ok evl (dropStalePhase evl t).1 nid2).2.2
           ++ (dropGonePhase evl (connectPhase ok evl (dropStalePhase evl t).1 nid2).1).2⟩ :=
    rfl
  rw [hrw]
  simp [h1, h2, h3]

/-- C9 counterexample: when every dial fails, the first pass performs a
connect attempt and leaves the registry empty, and a second pass over
the unchanged topology performs the same connect attempt again — not
zero actions, so reconciliation is not idempotent for every registry
state and topology. -/
theorem C9_counterexample :
    (update_connections c9ok c9evl
        (quiesce (update_connections c9ok c9evl c9state 0).state)
        (update_connections c9ok c9evl c9state 0).nextId).trace
      = [RAction.connectAttempt "r1" ("10.0.0.1", 5250) false] := by
  decide

/-- C1 (amended): after a reconciliation pass over a settled,
well-formed state AND delivery of the `connectionLost` notifications for
the teardowns the pass initiated, the registry maps each event-loop name
to at most one connection and every remaining entry's address belongs to
the desired topology's address list for that name.  (At the instant the
pass itself completes the invariant can fail, because drops only
initiate teardown — see the counterexample.) -/
theorem C1_registry_invariant (ok : String → Addr → Bool)
    (evl : List (String × List Addr)) (s : ClusterState) (nid : Nat)
    (hr : s.running = true) (hpc : s.pendingClose = [])
    (hnd : nodupKeys s.connections) (hwf : wfKeys s.connections)
    (hevl : nodupKeys evl) :
    nodupKeys (quiesce (update_connections ok evl s nid).state).connections ∧
    ∀ n c, lookupKey (quiesce (update_connections ok evl s nid).state).connections n
        = some c →
      ∃ addrs, lookupKey evl n = some addrs ∧ c.address ∈ addrs :=
  pass_quiesce_char ok evl s nid hr hpc hnd hwf hevl

/-- Witness for C1 (amended) at a concrete state and topology. -/
theorem C1_registry_invariant_witness :
    nodupKeys (quiesce (update_connections c1ok c1wevl c1state 1).state).connections :=
  (C1_registry_invariant c1ok c1wevl c1state 1 rfl rfl (by decide)
    (by intro n c h; simp [c1state] at h; rw [h.2, h.1]; decide) (by decide)).1

/-- C2 (amended): in every pass the trace splits into three phases in
program order — first the drops of entries whose name is still desired
but whose address is stale, then all connect attempts, then the drops of
entries whose name is absent from the desired topology (so those drops
come AFTER the connect attempts, not before).  Moreover a drop never
removes the registry entry during the pass: every connection dropped for
a stale address is still registered when the pass completes (removal
happens only when its `connectionLost` is later delivered). -/
theorem C2_pass_action_order (ok : String → Addr → Bool)
    (evl : List (String × List Addr)) (s : ClusterState) (nid : Nat) :
    (∃ t1 t2 t3, (update_connections ok evl s nid).trace = t1 ++ t2 ++ t3 ∧
      (∀ a ∈ t1, ∃ n addrs c, a = RAction.dropStale c ∧ (n, addrs) ∈ evl ∧
        lookupKey s.connections n = some c ∧ c.address ∉ addrs) ∧
      (∀ a ∈ t2, ∃ nm ad b, a = RAction.connectAttempt nm ad b) ∧
      (∀ a ∈ t3, ∃ c m, a = RAction.dropGone c ∧
        (m, c) ∈ (update_connections ok evl s nid).state.connections ∧
        m ∉ evl.map Prod.fst)) ∧
    (∀ c, RAction.dropStale c ∈ (update_connections ok evl s nid).trace →
      ∃ m, (m, c) ∈ (update_connections ok evl s nid).state.connections) := by
  have htr : (update_connections ok evl s nid).trace
      = (dropStalePhase evl s).2
        ++ (connectPhase ok evl (dropStalePhase evl s).1 nid).2.2
        ++ (dropGonePhase evl (connectPhase ok evl (dropStalePhase evl s).1 nid).1).2 := rfl
  have hstate : (update_connections ok evl s nid).state
      = (dropGonePhase evl (connectPhase ok evl (dropStalePhase evl s).1 nid).1).1 := rfl
  have hs3conns : (update_connections ok evl s nid).state.connections
      = (connectPhase ok evl (dropStalePhase evl s).1 nid).1.connections := by
    rw [hstate]
    exact (dropGonePhase_fields evl _).1
  constructor
  · refine ⟨_, _, _, htr, ?_, ?_, ?_⟩
    · intro a ha
      exact dropStalePhase_trace_sound evl s ha
    · intro a ha
      exact connectPhase_trace_sound ok evl _ nid ha
    · intro a ha
      obtain ⟨c, m, h1, h2, h3⟩ := dropGonePhase_trace_sound evl _ ha
      refine ⟨c, m, h1, ?_, h3⟩
      rw [hs3conns]
      exact h2
  · intro c hc
    rw [htr] at hc
    rcases List.mem_append.mp hc with h12 | h3
    · rcases List.mem_append.mp h12 with h1 | h2
      · obtain ⟨n, addrs, c2, heq, hm, hl, hna⟩ := dropStalePhase_trace_sound evl s h1
        have hcc : c = c2 := by injection heq
        subst hcc
        refine ⟨n, ?_⟩
        obtain ⟨ext, hext⟩ := connectPhase_conns_ext ok evl (dropStalePhase evl s).1 nid
        rw [hs3conns, hext, (dropStalePhase_fields evl s).1]
        exact List.mem_append_left _ (lookupKey_mem hl)
      · obtain ⟨nm, ad, b, hb⟩ := connectPhase_trace_sound ok evl _ nid h2
        cases hb
    · obtain ⟨c2, m, hb, _, _⟩ := dropGonePhase_trace_sound evl _ h3
      cases hb

/-- Witness for C2 (amended): the entry dropped for a stale address is
still present in the registry when the pass completes. -/
theorem C2_pass_action_order_witness :
    ∃ m, (m, c2wconn) ∈ (update_connections c2wok c2wevl c2wstate 1).state.connections :=
  (C2_pass_action_order c2wok c2wevl c2wstate 1).2 c2wconn (by decide)

/-- C9 (amended): reconciliation is idempotent only under success
conditions: starting from a settled well-formed state with no
stale-address entry, with every dial succeeding, and letting the first
pass's initiated teardowns complete, a second pass over the unchanged
topology performs zero connect and zero drop actions.  (Without these
conditions the second pass repeats work — see the counterexample.) -/
theorem C9_second_pass_no_actions (ok : String → Addr → Bool)
    (evl : List (String × List Addr)) (s : ClusterState) (nid nid2 : Nat)
    (hr : s.running = true) (hpc : s.pendingClose = [])
    (hnd : nodupKeys s.connections) (hwf : wfKeys s.connections)
    (hevl : nodupKeys evl)
    (hstale : ∀ n c addrs, lookupKey s.connections n = some c →
      lookupKey evl n = some addrs → c.address ∈ addrs)
    (hok : ∀ m a2, ok m a2 = true) :
    (update_connections ok evl
      (quiesce (update_connections ok evl s nid).state) nid2).trace = [] := by
  have hQ := pass_quiesce_char ok evl s nid hr hpc hnd hwf hevl
  have hcov : ∀ n addrs, (n, addrs) ∈ evl → addrs ≠ [] →
      ∃ c, lookupKey (quiesce (update_connections ok evl s nid).state).connections n
        = some c :=
    fun n addrs hm hne2 =>
      pass_quiesce_covered ok evl s nid hr hpc hnd hwf hevl hstale hok hm hne2
  rw [pass_identity ok evl _ nid2 hQ.1 hQ.2 hcov hevl]

/-- Witness for C9 (amended) at a concrete state and topology. -/
theorem C9_second_pass_no_actions_witness :
    (update_connections c9wok c9wevl
      (quiesce (update_connections c9wok c9wevl c9wstate 0).state) 5).trace = [] :=
  C9_second_pass_no_actions c9wok c9wevl c9wstate 0 5 rfl rfl (by decide)
    (by intro n c h; simp [c9wstate] at h) (by decide)
    (by intro n c addrs h; simp [c9wstate, lookupKey] at h) (fun m a2 => rfl)

end ClusterService
